import Mathlib

/-!
Verification of the Adverse Event Severity Resolution Pipeline
(`ime2.py`): a shallow embedding of the severity resolver, the
deduplicator, the response assembler, the layered oracle-reply parsing
and the corpus loader, with theorems checking the specified properties.

Strings are modelled by Lean `String` (a list of characters); Python's
`str.lower` is modelled on ASCII (it maps `A`-`Z` to `a`-`z` and fixes
every other character) and `str.strip` removes the six ASCII whitespace
characters from both ends.  Python's `in` on strings is substring
containment, modelled by an executable checker on character lists.
-/

/-- ASCII model of Python `str.lower`: uppercase letters map to their
lowercase counterparts, every other character is fixed. -/
def lowerChar : Char → Char
  | 'A' => 'a' | 'B' => 'b' | 'C' => 'c' | 'D' => 'd' | 'E' => 'e'
  | 'F' => 'f' | 'G' => 'g' | 'H' => 'h' | 'I' => 'i' | 'J' => 'j'
  | 'K' => 'k' | 'L' => 'l' | 'M' => 'm' | 'N' => 'n' | 'O' => 'o'
  | 'P' => 'p' | 'Q' => 'q' | 'R' => 'r' | 'S' => 's' | 'T' => 't'
  | 'U' => 'u' | 'V' => 'v' | 'W' => 'w' | 'X' => 'x' | 'Y' => 'y'
  | 'Z' => 'z' | c => c

/-- The six ASCII whitespace characters removed by Python `str.strip`. -/
def isSpaceChar (c : Char) : Bool :=
  c == ' ' || c == '\t' || c == '\n' || c == '\r' || c == '\x0b' || c == '\x0c'

/-- Lowercasing on character lists. -/
def lowerData (l : List Char) : List Char := l.map lowerChar

/-- Trimming whitespace from both ends of a character list
(Python `str.strip`). -/
def trimData (l : List Char) : List Char :=
  ((l.dropWhile isSpaceChar).reverse.dropWhile isSpaceChar).reverse

/-- Python `s.lower()`. -/
def pyLower (s : String) : String := ⟨lowerData s.data⟩

/-- Python `s.strip()`. -/
def pyTrim (s : String) : String := ⟨trimData s.data⟩

/-- Executable check that the first list is an initial segment of the
second. -/
def pfxData : List Char → List Char → Bool
  | [], _ => true
  | _ :: _, [] => false
  | a :: t, b :: s => a == b && pfxData t s

/-- Executable substring test: does `t` occur contiguously inside `l`? -/
def subData : List Char → List Char → Bool
  | t, [] => pfxData t []
  | t, b :: rest => pfxData t (b :: rest) || subData t rest

/-- Python `needle in hay` on strings: substring containment. -/
def containsSub (hay needle : String) : Bool := subData needle.data hay.data

/-- The three reference term sets loaded from the CSV files
(`medically_significant_terms`, `significant_disability_terms`,
`congenital_anomaly_terms` in `ime2.py`). -/
structure Corpus where
  medically_significant_terms : List String
  significant_disability_terms : List String
  congenital_anomaly_terms : List String

/-- An event as returned by the event-extraction oracle, before
deduplication: `Term` and `Severity`. -/
structure RawEvent where
  term : String
  severity : String
deriving DecidableEq

/-- A candidate adverse event flowing into the severity resolver:
`Term`, `Severity` and `Is_Diagnosis` in `ime2.py`. -/
structure CandidateEvent where
  term : String
  severity : String
  is_diagnosis : Bool
deriving DecidableEq

/-- Tier membership test of `check_csv_severity`: the candidate term is
lowercased and stripped, and a tier matches when any of its entries is a
substring of that normalized term (`any(term in ae_term_lower for term in ...)`). -/
def tierMatch (ae_term : String) (tier : List String) : Bool :=
  tier.any (fun t => containsSub (pyTrim (pyLower ae_term)) t)

/-- The function `check_csv_severity` of `ime2.py`: test the three corpus
tiers in the fixed order significant disability, congenital anomaly,
medically significant; return the matched category or nothing. -/
def check_csv_severity (ae_term : String) (c : Corpus) : Option String :=
  if tierMatch ae_term c.significant_disability_terms then
    some "Significant disability or incapacity"
  else if tierMatch ae_term c.congenital_anomaly_terms then
    some "Congenital anomaly or birth defect"
  else if tierMatch ae_term c.medically_significant_terms then
    some "Medically significant"
  else none

/-- The ordered rule table `severity_rules` of
`determine_adr_severity_for_diagnosed` in `ime2.py`, keyword lists first,
then the three corpus tiers.  Note the literal `"ER visit"` is copied
verbatim from the source, uppercase included. -/
def severity_rules (c : Corpus) : List (List String × String) :=
  [(["death", "fatal", "mortality", "died", "passed away", "deceased",
     "expired", "demise"], "Fatal or death"),
   (["life-threatening", "ventilator", "emergency intervention",
     "critical condition", "near death", "almost died", "intensive care"],
     "Life threatening"),
   (["hospitalization", "hospital", "admitted", "admission",
     "emergency room", "ER visit"],
     "Inpatient hospitalization or prolongation of hospitalization"),
   (c.significant_disability_terms, "Significant disability or incapacity"),
   (c.congenital_anomaly_terms, "Congenital anomaly or birth defect"),
   (c.medically_significant_terms, "Medically significant")]

/-- The function `determine_adr_severity_for_diagnosed` of `ime2.py`:
evaluate the rule table in order on the lowercased, stripped term; the
first rule one of whose keywords is a substring wins; default
"None of the above". -/
def determine_adr_severity_for_diagnosed (ae_term : String) (c : Corpus) : String :=
  match (severity_rules c).find?
      (fun r => r.1.any (fun k => containsSub (pyTrim (pyLower ae_term)) k)) with
  | some r => r.2
  | none => "None of the above"

/-- The list `severity_priority` of `analyze_text` in `ime2.py`: the seven
recognized severity values, most to least severe. -/
def severity_priority : List String :=
  ["Fatal or death",
   "Life threatening",
   "Inpatient hospitalization or prolongation of hospitalization",
   "Congenital anomaly or birth defect",
   "Significant disability or incapacity",
   "Medically significant",
   "None of the above"]

/-- The seriousness derivation of `analyze_text`: "Serious" when the final
severity lies in `severity_priority` with "None of the above" excluded
(`severity_priority[:-1]`), else "Non-Serious". -/
def seriousnessOf (final_severity : String) : String :=
  if severity_priority.dropLast.contains final_severity then "Serious"
  else "Non-Serious"

/-- The per-event severity resolution of `analyze_text` (lines 376-403):
strip the term; when the oracle severity is empty, blank or the
placeholder "To be determined", fall back to the diagnosed-condition
keyword resolver for diagnosis-flagged events and to "None of the above"
otherwise; finally a corpus tier match from `check_csv_severity`
overrides whatever severity was chosen. -/
def resolveSeverity (e : CandidateEvent) (c : Corpus) : String :=
  let ae_term := pyTrim e.term
  let ai_severity :=
    if e.severity = "" ∨ pyTrim e.severity = "" ∨ e.severity = "To be determined" then
      (if e.is_diagnosis then determine_adr_severity_for_diagnosed ae_term c
       else "None of the above")
    else e.severity
  match check_csv_severity ae_term c with
  | some csv => csv
  | none => ai_severity

/-- The resolved (final severity, seriousness) pair for one candidate
event, as computed by the loop body of `analyze_text`. -/
def resolveEvent (e : CandidateEvent) (c : Corpus) : String × String :=
  (resolveSeverity e c, seriousnessOf (resolveSeverity e c))

/-- The three output fields of one event at position `i` of the loop of
`analyze_text`: position 1 uses the unsuffixed names, later positions
append the numeral. -/
def fieldTriple (i : Nat) (term fs ser : String) : List (String × String) :=
  if i = 1 then
    [("Adverse_Event_Terms", term), ("Side_Effect_Severity", fs),
     ("Side_Effect_Seriousness", ser)]
  else
    [("Adverse_Event_Terms" ++ toString i, term),
     ("Side_Effect_Severity" ++ toString i, fs),
     ("Side_Effect_Seriousness" ++ toString i, ser)]

/-- The response-assembly loop of `analyze_text`
(`for i, event in enumerate(events, 1)`): an event whose stripped term is
empty emits nothing but the position counter still advances. -/
def assembleLoop (c : Corpus) : List CandidateEvent → Nat → List (String × String)
  | [], _ => []
  | e :: rest, i =>
    if pyTrim e.term = "" then assembleLoop c rest (i + 1)
    else
      fieldTriple i (pyTrim e.term) (resolveEvent e c).1 (resolveEvent e c).2
        ++ assembleLoop c rest (i + 1)

/-- The full response assembly of `analyze_text`: at most the first five
events are processed, numbering starts at 1. -/
def assembleResponse (c : Corpus) (events : List CandidateEvent) : List (String × String) :=
  assembleLoop c (events.take 5) 1

/-- The deduplication comparison key of `extract_medical_information`:
`event_term.lower().strip()`. -/
def dedupKey (s : String) : String := pyTrim (pyLower s)

/-- The deduplication loop of `extract_medical_information` (lines
308-326): strip each term, drop empty terms, drop terms whose comparison
key was already seen, keep the first-seen stripped term with its oracle
severity, flag the survivors as non-diagnosis events. -/
def dedupLoop : List RawEvent → List String → List CandidateEvent
  | [], _ => []
  | e :: rest, seen =>
    if pyTrim e.term = "" then dedupLoop rest seen
    else if dedupKey (pyTrim e.term) ∈ seen then dedupLoop rest seen
    else ⟨pyTrim e.term, e.severity, false⟩ ::
      dedupLoop rest (dedupKey (pyTrim e.term) :: seen)

/-- The deduplicated, truncated event list returned by
`extract_medical_information`: the loop run with nothing seen, cut to the
first five survivors (`events[:5]`). -/
def dedupEvents (l : List RawEvent) : List CandidateEvent :=
  (dedupLoop l []).take 5

/-- A JSON-shaped value as relevant to the oracle replies: strings,
arrays, objects (association lists) and anything else. -/
inductive JVal where
  | str (s : String)
  | arr (elems : List JVal)
  | obj (fields : List (String × JVal))
  | other

/-- Python `dict.get(k)` on a JSON object. -/
def jLookup (fields : List (String × JVal)) (k : String) : Option JVal :=
  match fields.find? (fun p => p.1 == k) with
  | some p => some p.2
  | none => none

/-- Python `event.get(k, dflt)` followed by use as a string: the default
when the key is absent, the string when present, failure (a raised
`AttributeError`) when the value is not a string. -/
def jStrField (fields : List (String × JVal)) (k : String) (dflt : String) : Option String :=
  match jLookup fields k with
  | none => some dflt
  | some (JVal.str s) => some s
  | some _ => none

/-- One entry of the oracle's `Adverse_Events` list:
`event.get("Term", "")` and `event.get("Severity", "None of the above")`. -/
def rawEventOfJson : JVal → Option RawEvent
  | JVal.obj fs =>
    match jStrField fs "Term" "", jStrField fs "Severity" "None of the above" with
    | some t, some s => some ⟨t, s⟩
    | _, _ => none
  | _ => none

/-- The shape validation of `extract_medical_information`: the parsed
reply must be an object with an `Adverse_Events` key
(`ValueError("Invalid response format")` otherwise); a non-list value or
a malformed entry raises and surfaces as the internal failure. -/
def extractEvents : JVal → Except String (List RawEvent)
  | JVal.obj fs =>
    match jLookup fs "Adverse_Events" with
    | none => Except.error "Invalid response format"
    | some (JVal.arr es) =>
      match es.mapM rawEventOfJson with
      | some l => Except.ok l
      | none => Except.error "Internal server error"
    | some _ => Except.error "Internal server error"
  | _ => Except.error "Invalid response format"

/-- The characters of the code-fence marker "```json". -/
def fenceJson : List Char := "```json".data

/-- The characters of the bare code-fence marker. -/
def fence : List Char := "```".data

/-- The code-fence removal of `safe_json_loads`
(`re.sub` over the fence markers, left to right, longest alternative
first), written with a step counter for structural recursion: every step
consumes at least one character, so a budget of the input length is
always enough. -/
def stripFencesFuel : Nat → List Char → List Char
  | 0, l => l
  | _, [] => []
  | n + 1, c :: rest =>
    if pfxData fenceJson (c :: rest) then stripFencesFuel n ((c :: rest).drop 7)
    else if pfxData fence (c :: rest) then stripFencesFuel n ((c :: rest).drop 3)
    else c :: stripFencesFuel n rest

/-- The code-fence removal of `safe_json_loads`. -/
def stripFences (l : List Char) : List Char := stripFencesFuel l.length l

/-- The text handed to every parsing strategy by `safe_json_loads`: the
reply stripped, with code fences removed, stripped again. -/
def preprocessReply (text : String) : String := pyTrim ⟨stripFences (pyTrim text).data⟩

/-- The function `safe_json_loads` of `ime2.py` with the three Python
parsing strategies (strict `json.loads`, regex bracket extraction,
`eval`) taken as parameters: the first strategy to succeed on the
preprocessed text wins; when every strategy fails a `ValueError` with
the fixed message is raised. -/
def safe_json_loads (strategies : List (String → Option JVal)) (text : String) :
    Except String JVal :=
  match strategies.findSome? (fun f => f (preprocessReply text)) with
  | some j => Except.ok j
  | none => Except.error "Could not parse JSON after trying multiple strategies"

/-- Splitting a character list on commas (Python `str.split(',')`). -/
def splitCommaAux : List Char → List Char → List (List Char)
  | [], cur => [cur.reverse]
  | c :: rest, cur =>
    if c = ',' then cur.reverse :: splitCommaAux rest []
    else splitCommaAux rest (c :: cur)

/-- Python `s.split(',')`. -/
def pySplitComma (s : String) : List String := (splitCommaAux s.data []).map (fun l => ⟨l⟩)

/-- Python `',' in s`. -/
def pyHasComma (s : String) : Bool := s.data.any (fun c => c == ',')

/-- The diagnosis branch of `extract_medical_information`: split the
diagnosed condition on commas when one is present, strip the fragments,
drop the empty ones; every survivor becomes a diagnosis-flagged candidate
with the placeholder severity. -/
def diagnosisCandidates (dc : String) : List CandidateEvent :=
  if pyHasComma dc then
    (((pySplitComma dc).map pyTrim).filter (fun t => !(t == ""))).map
      (fun t => ⟨t, "To be determined", true⟩)
  else [⟨pyTrim dc, "To be determined", true⟩]

/-- The function `extract_medical_information` of `ime2.py`, with the
oracle replies taken as inputs: a non-blank diagnosed condition
short-circuits into diagnosis candidates; otherwise the event reply is
parsed, validated and deduplicated, and any failure propagates
(`raise`). -/
def extract_medical_information (strategies : List (String → Option JVal))
    (diagnosed_condition : String) (event_reply : String) :
    Except String (List CandidateEvent) :=
  if ¬ diagnosed_condition = "" ∧ ¬ pyTrim diagnosed_condition = "" then
    Except.ok (diagnosisCandidates diagnosed_condition)
  else
    match safe_json_loads strategies event_reply with
    | Except.error e => Except.error e
    | Except.ok j =>
      match extractEvents j with
      | Except.error e => Except.error e
      | Except.ok raws => Except.ok (dedupEvents raws)

/-- The `/analyze` request handler `analyze_text` of `ime2.py`, with the
oracle replies taken as inputs: blank input text is rejected before
anything else; an extraction failure propagates as the error response
(no adverse-event fields); otherwise the events are resolved and
assembled into the positional output fields. -/
def analyze_text (strategies : List (String → Option JVal))
    (text diagnosed_condition event_reply : String) (c : Corpus) :
    Except String (List (String × String)) :=
  if pyTrim text = "" then Except.error "No text provided for analysis"
  else
    match extract_medical_information strategies diagnosed_condition event_reply with
    | Except.error e => Except.error e
    | Except.ok events => Except.ok (assembleResponse c events)

/-- The state of one reference CSV source as seen by
`load_ae_terms_from_csv`: absent (raising `FileNotFoundError`),
unreadable or malformed (raising any other error), or readable with its
first-column values. -/
inductive FileOutcome where
  | missing
  | unreadable
  | rows (entries : List String)
deriving DecidableEq

/-- The inner `load_terms` of `load_ae_terms_from_csv`: a missing file is
caught and degrades to the empty set (logged, not fatal); a readable file
yields its lowercased, stripped first-column entries; any other error
propagates. -/
def load_terms : FileOutcome → Except String (List String)
  | FileOutcome.missing => Except.ok []
  | FileOutcome.unreadable => Except.error "CorpusLoadError"
  | FileOutcome.rows entries => Except.ok (entries.map (fun t => pyTrim (pyLower t)))

/-- The function `load_ae_terms_from_csv` of `ime2.py`: load the three
sources in order (medically significant, significant disability,
congenital anomaly); the first propagated error aborts the load, which
aborts server startup. -/
def load_ae_terms_from_csv (f_ms f_sd f_ca : FileOutcome) : Except String Corpus :=
  match load_terms f_ms with
  | Except.error e => Except.error e
  | Except.ok ms =>
    match load_terms f_sd with
    | Except.error e => Except.error e
    | Except.ok sd =>
      match load_terms f_ca with
      | Except.error e => Except.error e
      | Except.ok ca => Except.ok ⟨ms, sd, ca⟩

/-! String-model lemmas: lowercasing preserves whitespace, trimming is
idempotent, the two commute, a trimmed needle survives the haystack's
trimming, and the executable substring checker agrees with
`List.IsInfix`. -/

theorem isSpaceChar_lowerChar (c : Char) : isSpaceChar (lowerChar c) = isSpaceChar c := by
  unfold lowerChar
  split <;> rfl

theorem dropWhile_lowerData (m : List Char) :
    List.dropWhile isSpaceChar (lowerData m) = lowerData (List.dropWhile isSpaceChar m) := by
  unfold lowerData
  rw [List.dropWhile_map]
  have h : (isSpaceChar ∘ lowerChar) = isSpaceChar := by
    funext c
    exact isSpaceChar_lowerChar c
  rw [h]

theorem lowerData_reverse (m : List Char) : lowerData m.reverse = (lowerData m).reverse := by
  unfold lowerData
  exact List.map_reverse lowerChar m

theorem lowerData_trimData (l : List Char) :
    lowerData (trimData l) = trimData (lowerData l) := by
  unfold trimData
  rw [dropWhile_lowerData, ← lowerData_reverse, dropWhile_lowerData, ← lowerData_reverse]

theorem pfxData_iff (t l : List Char) : pfxData t l = true ↔ t <+: l := by
  induction t generalizing l with
  | nil => simp [pfxData]
  | cons a t ih =>
    cases l with
    | nil => simp [pfxData]
    | cons b s =>
      simp only [pfxData, Bool.and_eq_true, beq_iff_eq, ih]
      constructor
      · rintro ⟨rfl, ⟨v, rfl⟩⟩
        exact ⟨v, rfl⟩
      · rintro ⟨v, hv⟩
        simp at hv
        exact ⟨hv.1, ⟨v, hv.2⟩⟩

theorem consSplitSub {t : List Char} {b : Char} {r : List Char} :
    t <:+: b :: r ↔ t <+: b :: r ∨ t <:+: r := by
  constructor
  · rintro ⟨u, v, huv⟩
    cases u with
    | nil => exact Or.inl ⟨v, by simpa using huv⟩
    | cons c u' =>
      simp at huv
      exact Or.inr ⟨u', v, by rw [List.append_assoc]; exact huv.2⟩
  · rintro (⟨v, hv⟩ | ⟨u, v, huv⟩)
    · exact ⟨[], v, by simpa using hv⟩
    · exact ⟨b :: u, v, by simp [huv]⟩

theorem subData_iff (t l : List Char) : subData t l = true ↔ t <:+: l := by
  induction l with
  | nil =>
    simp only [subData, pfxData_iff]
    constructor
    · rintro ⟨v, hv⟩
      simp only [List.append_eq_nil] at hv
      exact ⟨[], [], by simp [hv.1]⟩
    · rintro ⟨u, v, huv⟩
      simp only [List.append_eq_nil] at huv
      exact ⟨[], by simp [huv.1.2]⟩
  | cons b r ih =>
    simp only [subData, Bool.or_eq_true, pfxData_iff, ih, consSplitSub]

theorem dropWhile_cons_self {p : Char → Bool} {a : Char} {l : List Char}
    (h : List.dropWhile p (a :: l) = a :: l) : p a = false := by
  by_cases hp : p a
  · rw [List.dropWhile_cons, if_pos hp] at h
    have hle : (List.dropWhile p l).length ≤ l.length :=
      (List.dropWhile_suffix p).sublist.length_le
    have hlen := congrArg List.length h
    simp at hlen
    omega
  · simpa using hp

theorem dropWhile_idem (p : Char → Bool) (l : List Char) :
    List.dropWhile p (List.dropWhile p l) = List.dropWhile p l := by
  induction l with
  | nil => rfl
  | cons a l ih =>
    by_cases h : p a <;> simp [List.dropWhile_cons, h, ih]

theorem needleSurvivesLeft {t l : List Char} (h : t <:+: l)
    (ht : List.dropWhile isSpaceChar t = t) :
    t <:+: List.dropWhile isSpaceChar l := by
  induction l with
  | nil =>
    have hnil : t = [] := by simpa using h
    subst hnil
    simp
  | cons a l ih =>
    by_cases ha : isSpaceChar a
    · rw [List.dropWhile_cons, if_pos ha]
      rcases h with ⟨u, v, huv⟩
      cases u with
      | nil =>
        cases t with
        | nil => simp
        | cons b t' =>
          simp at huv
          have hb : b = a := huv.1
          subst hb
          have hfalse := dropWhile_cons_self ht
          rw [hfalse] at ha
          simp at ha
      | cons c u' =>
        simp at huv
        exact ih ⟨u', v, by rw [List.append_assoc]; exact huv.2⟩
    · rw [List.dropWhile_cons, if_neg ha]
      exact h

theorem revSub {t l : List Char} (h : t <:+: l) : t.reverse <:+: l.reverse := by
  rcases h with ⟨u, v, rfl⟩
  exact ⟨v.reverse, u.reverse, by simp⟩

theorem needleSurvivesTrim {t l : List Char} (h : t <:+: l)
    (ht : trimData t = t) : t <:+: trimData l := by
  have hlen1 : (List.dropWhile isSpaceChar t).length ≤ t.length :=
    (List.dropWhile_suffix _).sublist.length_le
  have hlen2 : (trimData t).length ≤ (List.dropWhile isSpaceChar t).length := by
    unfold trimData
    have hx : ((List.dropWhile isSpaceChar t).reverse.dropWhile isSpaceChar).length ≤
        (List.dropWhile isSpaceChar t).reverse.length :=
      (List.dropWhile_suffix _).sublist.length_le
    simpa using hx
  have hL : List.dropWhile isSpaceChar t = t := by
    have hlen : (List.dropWhile isSpaceChar t).length = t.length := by
      have := congrArg List.length ht
      omega
    exact List.Sublist.eq_of_length (List.dropWhile_suffix _).sublist hlen
  have hR : List.dropWhile isSpaceChar t.reverse = t.reverse := by
    have h2 : trimData t = (t.reverse.dropWhile isSpaceChar).reverse := by
      unfold trimData
      rw [hL]
    rw [ht] at h2
    have h3 := congrArg List.reverse h2
    simpa using h3.symm
  have s1 : t <:+: List.dropWhile isSpaceChar l := needleSurvivesLeft h hL
  have s2 : t.reverse <:+: (List.dropWhile isSpaceChar l).reverse := revSub s1
  have s3 : t.reverse <:+: List.dropWhile isSpaceChar (List.dropWhile isSpaceChar l).reverse :=
    needleSurvivesLeft s2 hR
  have s4 := revSub s3
  simpa [trimData] using s4

theorem revDropRev_pfx (Z : List Char) :
    (List.dropWhile isSpaceChar Z.reverse).reverse <+: Z := by
  rcases List.dropWhile_suffix (l := Z.reverse) isSpaceChar with ⟨u, hu⟩
  refine ⟨u.reverse, ?_⟩
  have h := congrArg List.reverse hu
  simpa using h

theorem pfxStable {Z m : List Char} (hZ : List.dropWhile isSpaceChar Z = Z)
    (hm : m <+: Z) : List.dropWhile isSpaceChar m = m := by
  cases m with
  | nil => rfl
  | cons a m' =>
    rcases hm with ⟨v, hv⟩
    rw [List.cons_append] at hv
    subst hv
    have ha := dropWhile_cons_self hZ
    rw [List.dropWhile_cons, if_neg (by simp [ha])]

theorem trimData_idem (l : List Char) : trimData (trimData l) = trimData l := by
  have hZ : List.dropWhile isSpaceChar (List.dropWhile isSpaceChar l) =
      List.dropWhile isSpaceChar l := dropWhile_idem _ _
  have hmp : trimData l <+: List.dropWhile isSpaceChar l := revDropRev_pfx _
  have h1 : List.dropWhile isSpaceChar (trimData l) = trimData l := pfxStable hZ hmp
  have h2 : List.dropWhile isSpaceChar (trimData l).reverse = (trimData l).reverse := by
    have hrev : (trimData l).reverse =
        List.dropWhile isSpaceChar (List.dropWhile isSpaceChar l).reverse := by
      unfold trimData
      simp
    rw [hrev]
    exact dropWhile_idem _ _
  show ((List.dropWhile isSpaceChar (trimData l)).reverse.dropWhile isSpaceChar).reverse =
    trimData l
  rw [h1, h2]
  simp

theorem hayEq (s : String) :
    (pyTrim (pyLower (pyTrim s))).data = trimData (lowerData s.data) := by
  show trimData (lowerData (trimData s.data)) = trimData (lowerData s.data)
  rw [lowerData_trimData, trimData_idem]

/-! Support lemmas for the claim theorems. -/

theorem seriousness_of_none : seriousnessOf "None of the above" = "Non-Serious" := by decide

theorem mem_of_contains_dropLast {s : String}
    (h : severity_priority.dropLast.contains s = true) : s ∈ severity_priority := by
  have hmem : s ∈ severity_priority.dropLast := by
    simpa using h
  exact (List.dropLast_sublist severity_priority).subset hmem

/-- C1: a candidate whose lowercased term contains a (trimmed, as loaded)
entry of the significant-disability corpus resolves to "Significant
disability or incapacity", whatever the oracle severity and the diagnosis
flag say. -/
theorem significant_disability_overrides (e : CandidateEvent) (c : Corpus) (entry : String)
    (hmem : entry ∈ c.significant_disability_terms)
    (hnorm : pyTrim entry = entry)
    (hsub : containsSub (pyLower e.term) entry = true) :
    resolveSeverity e c = "Significant disability or incapacity" := by
  have hdata : trimData entry.data = entry.data := congrArg String.data hnorm
  have hsub' : entry.data <:+: lowerData e.term.data := (subData_iff _ _).1 hsub
  have hsurv : entry.data <:+: trimData (lowerData e.term.data) := needleSurvivesTrim hsub' hdata
  have hmatch : tierMatch (pyTrim e.term) c.significant_disability_terms = true := by
    unfold tierMatch
    rw [List.any_eq_true]
    refine ⟨entry, hmem, ?_⟩
    unfold containsSub
    rw [hayEq]
    exact (subData_iff _ _).2 hsurv
  have hcsv : check_csv_severity (pyTrim e.term) c =
      some "Significant disability or incapacity" := by
    simp [check_csv_severity, hmatch]
  simp [resolveSeverity, hcsv]

/-- C1 witness: the entry "paralysis" is a strict substring of the
lowercased term, the oracle supplied a competing severity and the event
is diagnosis-flagged; the corpus tier still wins. -/
theorem significant_disability_overrides_witness :
    resolveSeverity ⟨" Facial PARALYSIS ", "Life threatening", true⟩
      ⟨[], ["paralysis"], []⟩ = "Significant disability or incapacity" :=
  significant_disability_overrides ⟨" Facial PARALYSIS ", "Life threatening", true⟩
    ⟨[], ["paralysis"], []⟩ "paralysis" (by decide) (by decide) (by decide)

/-- C2, the code at the claim's input: a diagnosis-flagged candidate whose
term contains "er visit" but no other escalation keyword and no corpus
entry resolves to "None of the above", not to the hospitalization
severity, because the rule-table literal "ER visit" is uppercase while the
term has been lowercased before matching. -/
theorem er_visit_resolves_to_none :
    determine_adr_severity_for_diagnosed "er visit for chest pain" ⟨[], [], []⟩ =
      "None of the above" ∧
    resolveEvent ⟨"er visit for chest pain", "To be determined", true⟩ ⟨[], [], []⟩ =
      ("None of the above", "Non-Serious") := by
  constructor
  · rfl
  · rfl

/-- The "ER visit" entry of the hospitalization keyword list is dead code:
no lowercased character equals `E`, so the keyword can match no
lowercased, stripped term at all. -/
theorem er_visit_rule_unreachable (s : String) :
    containsSub (pyTrim (pyLower (pyTrim s))) "ER visit" = false := by
  have hne : ∀ c : Char, lowerChar c ≠ 'E' := by
    intro c h
    unfold lowerChar at h
    split at h <;> simp_all
  have hmem : ∀ ch ∈ (pyTrim (pyLower (pyTrim s))).data, ch ≠ 'E' := by
    intro ch hch
    rw [hayEq] at hch
    have h1 : ch ∈ List.dropWhile isSpaceChar (lowerData s.data) := by
      have h2 : ch ∈ (List.dropWhile isSpaceChar
          (List.dropWhile isSpaceChar (lowerData s.data)).reverse).reverse := hch
      rw [List.mem_reverse] at h2
      have h3 := (List.dropWhile_suffix isSpaceChar).sublist.subset h2
      rwa [List.mem_reverse] at h3
    have h4 := (List.dropWhile_suffix isSpaceChar).sublist.subset h1
    rcases List.mem_map.1 h4 with ⟨c0, _, hc0⟩
    rw [← hc0]
    exact hne c0
  have hkey : ∀ l : List Char, (∀ ch ∈ l, ch ≠ 'E') →
      subData "ER visit".data l = false := by
    intro l
    induction l with
    | nil => intro _; rfl
    | cons b rest ih =>
      intro hall
      have hb : b ≠ 'E' := hall b (List.mem_cons_self b rest)
      have hrest := ih (fun ch hch => hall ch (List.mem_cons_of_mem b hch))
      show (pfxData "ER visit".data (b :: rest) || subData "ER visit".data rest) = false
      rw [hrest]
      have hpfx : pfxData "ER visit".data (b :: rest) = false := by
        show (('E' == b) && pfxData "R visit".data rest) = false
        have : ('E' == b) = false := by
          simp [Ne.symm hb]
        rw [this]
        simp
      rw [hpfx]
      rfl
  exact hkey _ hmem

/-- C3: a non-diagnosis candidate with no corpus-tier match and an empty,
blank or placeholder oracle severity resolves to "None of the above" with
seriousness "Non-Serious"; no keyword escalation runs on this path. -/
theorem non_diagnosis_default_none (e : CandidateEvent) (c : Corpus)
    (hd : e.is_diagnosis = false)
    (hcsv : check_csv_severity (pyTrim e.term) c = none)
    (hai : e.severity = "" ∨ pyTrim e.severity = "" ∨ e.severity = "To be determined") :
    resolveEvent e c = ("None of the above", "Non-Serious") := by
  have h1 : resolveSeverity e c = "None of the above" := by
    rcases hai with h | h | h <;> simp [resolveSeverity, hcsv, hd, h]
  unfold resolveEvent
  rw [h1, seriousness_of_none]

/-- C3 witness: the term contains the Fatal keyword "died", yet the
non-diagnosis path ignores it and defaults to "None of the above". -/
theorem non_diagnosis_default_none_witness :
    resolveEvent ⟨"nearly died of shock", "", false⟩ ⟨[], [], []⟩ =
      ("None of the above", "Non-Serious") :=
  non_diagnosis_default_none ⟨"nearly died of shock", "", false⟩ ⟨[], [], []⟩
    (by decide) (by decide) (Or.inl (by decide))

/-- C6: over the seven recognized severity values, the derived seriousness
is "Non-Serious" exactly on "None of the above"; the classifier is a
total function, checked by exhaustive case analysis. -/
theorem seriousness_none_iff (s : String) (hs : s ∈ severity_priority) :
    seriousnessOf s = "Non-Serious" ↔ s = "None of the above" := by
  simp only [severity_priority, List.mem_cons, List.not_mem_nil, or_false] at hs
  rcases hs with rfl | rfl | rfl | rfl | rfl | rfl | rfl <;> decide

/-- C6 witness: instantiated at "Medically significant". -/
theorem seriousness_none_iff_witness :
    (seriousnessOf "Medically significant" = "Non-Serious" ↔
      "Medically significant" = "None of the above") :=
  seriousness_none_iff "Medically significant" (by decide)

/-- C7: when the term matches both the congenital-anomaly and the
medically-significant tier but not the significant-disability tier, the
resolver returns "Congenital anomaly or birth defect": the tier order is
fixed and the first match wins. -/
theorem tier_order_congenital_first (e : CandidateEvent) (c : Corpus)
    (hsd : tierMatch (pyTrim e.term) c.significant_disability_terms = false)
    (hca : tierMatch (pyTrim e.term) c.congenital_anomaly_terms = true)
    (hms : tierMatch (pyTrim e.term) c.medically_significant_terms = true) :
    resolveSeverity e c = "Congenital anomaly or birth defect" := by
  have hcsv : check_csv_severity (pyTrim e.term) c =
      some "Congenital anomaly or birth defect" := by
    simp [check_csv_severity, hsd, hca]
  simp [resolveSeverity, hcsv]

/-- C7 witness: "cleft" sits in both the congenital-anomaly and the
medically-significant corpus; the congenital tier wins. -/
theorem tier_order_congenital_first_witness :
    resolveSeverity ⟨"cleft palate", "None of the above", false⟩
      ⟨["cleft"], [], ["cleft"]⟩ = "Congenital anomaly or birth defect" :=
  tier_order_congenital_first ⟨"cleft palate", "None of the above", false⟩
    ⟨["cleft"], [], ["cleft"]⟩ (by decide) (by decide) (by decide)

/-- C10: a non-diagnosis candidate with no corpus match and a non-empty,
non-placeholder oracle severity outside the seven recognized values is
emitted verbatim as the severity, with seriousness "Non-Serious":
seriousness is membership in the fixed list, not difference from
"None of the above". -/
theorem unknown_severity_verbatim_nonserious (e : CandidateEvent) (c : Corpus)
    (hd : e.is_diagnosis = false)
    (hcsv : check_csv_severity (pyTrim e.term) c = none)
    (h1 : ¬ e.severity = "") (h2 : ¬ pyTrim e.severity = "")
    (h3 : ¬ e.severity = "To be determined")
    (hout : e.severity ∉ severity_priority)
    (hterm : ¬ pyTrim e.term = "") :
    assembleResponse c [e] =
      [("Adverse_Event_Terms", pyTrim e.term),
       ("Side_Effect_Severity", e.severity),
       ("Side_Effect_Seriousness", "Non-Serious")] := by
  have hsev : resolveSeverity e c = e.severity := by
    simp [resolveSeverity, hcsv, h1, h2, h3]
  have hser : seriousnessOf e.severity = "Non-Serious" := by
    unfold seriousnessOf
    rw [if_neg]
    intro hc
    exact hout (mem_of_contains_dropLast (by simpa using hc))
  rw [show assembleResponse c [e] =
      fieldTriple 1 (pyTrim e.term) (resolveEvent e c).1 (resolveEvent e c).2 from by
    simp [assembleResponse, assembleLoop, hterm]]
  unfold resolveEvent
  rw [hsev, hser]
  rfl

/-- C10 witness: the unrecognized severity "Severe" is kept verbatim and
labelled "Non-Serious". -/
theorem unknown_severity_verbatim_nonserious_witness :
    assembleResponse ⟨[], [], []⟩ [⟨"mild rash", "Severe", false⟩] =
      [("Adverse_Event_Terms", "mild rash"),
       ("Side_Effect_Severity", "Severe"),
       ("Side_Effect_Seriousness", "Non-Serious")] :=
  unknown_severity_verbatim_nonserious ⟨"mild rash", "Severe", false⟩ ⟨[], [], []⟩
    (by decide) (by decide) (by decide) (by decide) (by decide) (by decide) (by decide)

/-! Deduplicator lemmas (C4): invariants of `dedupLoop`, then the
properties of `dedupEvents`. -/

theorem dedupLoop_length_le (l : List RawEvent) :
    ∀ seen, (dedupLoop l seen).length ≤ l.length := by
  induction l with
  | nil => intro seen; simp [dedupLoop]
  | cons e rest ih =>
    intro seen
    unfold dedupLoop
    by_cases h1 : pyTrim e.term = ""
    · rw [if_pos h1]
      exact Nat.le_succ_of_le (ih seen)
    · rw [if_neg h1]
      by_cases h2 : dedupKey (pyTrim e.term) ∈ seen
      · rw [if_pos h2]
        exact Nat.le_succ_of_le (ih seen)
      · rw [if_neg h2]
        simpa using Nat.succ_le_succ (ih _)

theorem dedupLoop_key_not_seen (l : List RawEvent) :
    ∀ seen, ∀ ev ∈ dedupLoop l seen, dedupKey ev.term ∉ seen := by
  induction l with
  | nil => intro seen ev hev; simp [dedupLoop] at hev
  | cons e rest ih =>
    intro seen ev hev
    unfold dedupLoop at hev
    by_cases h1 : pyTrim e.term = ""
    · rw [if_pos h1] at hev
      exact ih seen ev hev
    · rw [if_neg h1] at hev
      by_cases h2 : dedupKey (pyTrim e.term) ∈ seen
      · rw [if_pos h2] at hev
        exact ih seen ev hev
      · rw [if_neg h2] at hev
        rcases List.mem_cons.1 hev with rfl | htail
        · exact h2
        · have := ih _ ev htail
          intro hmem
          exact this (List.mem_cons_of_mem _ hmem)

theorem dedupLoop_pairwise (l : List RawEvent) :
    ∀ seen, (dedupLoop l seen).Pairwise
      (fun a b => dedupKey a.term ≠ dedupKey b.term) := by
  induction l with
  | nil => intro seen; simp [dedupLoop]
  | cons e rest ih =>
    intro seen
    unfold dedupLoop
    by_cases h1 : pyTrim e.term = ""
    · rw [if_pos h1]
      exact ih seen
    · rw [if_neg h1]
      by_cases h2 : dedupKey (pyTrim e.term) ∈ seen
      · rw [if_pos h2]
        exact ih seen
      · rw [if_neg h2]
        refine List.Pairwise.cons ?_ (ih _)
        intro b hb heq
        have := dedupLoop_key_not_seen rest _ b hb
        rw [← heq] at this
        exact this (List.mem_cons_self _ _)

/-- The stripping a raw event undergoes when it survives deduplication. -/
def procRaw (r : RawEvent) : CandidateEvent := ⟨pyTrim r.term, r.severity, false⟩

theorem dedupLoop_sublist (l : List RawEvent) :
    ∀ seen, (dedupLoop l seen).Sublist (l.map procRaw) := by
  induction l with
  | nil => intro seen; simp [dedupLoop]
  | cons e rest ih =>
    intro seen
    unfold dedupLoop
    by_cases h1 : pyTrim e.term = ""
    · rw [if_pos h1]
      exact (ih seen).cons _
    · rw [if_neg h1]
      by_cases h2 : dedupKey (pyTrim e.term) ∈ seen
      · rw [if_pos h2]
        exact (ih seen).cons _
      · rw [if_neg h2]
        exact (ih _).cons₂ _

theorem dedupLoop_first_seen (l : List RawEvent) :
    ∀ seen, ∀ ev ∈ dedupLoop l seen, ∃ r,
      l.find? (fun x => !(pyTrim x.term == "") &&
        (dedupKey (pyTrim x.term) == dedupKey ev.term)) = some r ∧
      ev.term = pyTrim r.term ∧ ev.severity = r.severity := by
  induction l with
  | nil => intro seen ev hev; simp [dedupLoop] at hev
  | cons e rest ih =>
    intro seen ev hev
    unfold dedupLoop at hev
    by_cases h1 : pyTrim e.term = ""
    · rw [if_pos h1] at hev
      rcases ih seen ev hev with ⟨r, hr, hterm, hsev⟩
      refine ⟨r, ?_, hterm, hsev⟩
      rw [List.find?_cons_of_neg, hr]
      simp [h1]
    · rw [if_neg h1] at hev
      by_cases h2 : dedupKey (pyTrim e.term) ∈ seen
      · rw [if_pos h2] at hev
        rcases ih seen ev hev with ⟨r, hr, hterm, hsev⟩
        have hkey : dedupKey (pyTrim e.term) ≠ dedupKey ev.term := by
          intro heq
          exact dedupLoop_key_not_seen rest seen ev hev (heq ▸ h2)
        refine ⟨r, ?_, hterm, hsev⟩
        rw [List.find?_cons_of_neg, hr]
        simp [hkey]
      · rw [if_neg h2] at hev
        rcases List.mem_cons.1 hev with rfl | htail
        · refine ⟨e, ?_, rfl, rfl⟩
          rw [List.find?_cons_of_pos]
          simp [h1]
        · have hnot := dedupLoop_key_not_seen rest _ ev htail
          have hkey : dedupKey (pyTrim e.term) ≠ dedupKey ev.term := by
            intro heq
            exact hnot (heq ▸ List.mem_cons_self _ _)
          rcases ih _ ev htail with ⟨r, hr, hterm, hsev⟩
          refine ⟨r, ?_, hterm, hsev⟩
          rw [List.find?_cons_of_neg, hr]
          simp [hkey]

/-- C4: the deduplicated oracle event list has at most five entries and no
more than the input; no two survivors share the case-insensitive
comparison key (the lowercased, trimmed term); the output is a sublist of
the stripped input (input order preserved); and each survivor carries the
term and severity of the first input entry, in input order, whose
non-empty trimmed term has the survivor's key (first-seen casing wins). -/
theorem dedup_properties (l : List RawEvent) :
    (dedupEvents l).length ≤ 5 ∧
    (dedupEvents l).length ≤ l.length ∧
    (dedupEvents l).Pairwise (fun a b => dedupKey a.term ≠ dedupKey b.term) ∧
    (dedupEvents l).Sublist (l.map procRaw) ∧
    (∀ ev ∈ dedupEvents l, ∃ r,
      l.find? (fun x => !(pyTrim x.term == "") &&
        (dedupKey (pyTrim x.term) == dedupKey ev.term)) = some r ∧
      ev.term = pyTrim r.term ∧ ev.severity = r.severity) := by
  refine ⟨?_, ?_, ?_, ?_, ?_⟩
  · simpa [dedupEvents] using List.length_take_le 5 (dedupLoop l [])
  · calc (dedupEvents l).length ≤ (dedupLoop l []).length := by
          simpa [dedupEvents] using (List.take_sublist 5 (dedupLoop l [])).length_le
      _ ≤ l.length := dedupLoop_length_le l []
  · exact (dedupLoop_pairwise l []).sublist (List.take_sublist _ _)
  · exact (List.take_sublist _ _).trans (dedupLoop_sublist l [])
  · intro ev hev
    exact dedupLoop_first_seen l [] ev ((List.take_sublist _ _).subset hev)

/-- C4, concretely: seven raw events with mixed casing, blanks and
duplicates collapse to the first five unique survivors in input order. -/
theorem dedup_properties_example :
    dedupEvents [⟨" Nausea ", "None of the above"⟩, ⟨"nausea", "Severe"⟩,
      ⟨"  ", "x"⟩, ⟨"Rash", "None of the above"⟩, ⟨"Headache", ""⟩,
      ⟨"Fever", ""⟩, ⟨"Chills", ""⟩, ⟨"Fatigue", ""⟩] =
    [⟨"Nausea", "None of the above", false⟩, ⟨"Rash", "None of the above", false⟩,
     ⟨"Headache", "", false⟩, ⟨"Fever", "", false⟩, ⟨"Chills", "", false⟩] := by
  decide

/-! Response-assembler claims (C5): the positional counter of
`enumerate(events, 1)` advances even for skipped empty-term records, so
the suffix numbering is positional, not survivor-based. -/

/-- C5 counterexample: with an empty-term record in first position, the
surviving term "headache" is emitted under the suffixed names and no
unsuffixed `Adverse_Event_Terms` field exists, contradicting
survivor-only indexing. -/
theorem assembler_gap_counterexample :
    assembleResponse ⟨[], [], []⟩
      [⟨"", "None of the above", false⟩, ⟨"headache", "None of the above", false⟩] =
      [("Adverse_Event_Terms2", "headache"),
       ("Side_Effect_Severity2", "None of the above"),
       ("Side_Effect_Seriousness2", "Non-Serious")] ∧
    (assembleResponse ⟨[], [], []⟩
      [⟨"", "None of the above", false⟩, ⟨"headache", "None of the above", false⟩]).lookup
        "Adverse_Event_Terms" = none := by
  constructor
  · rfl
  · rfl

/-- Consecutive survivor numbering, the behaviour the specification
describes: every record emits its field triple and the position counter
matches the survivor ordinal exactly. -/
def specNumberedFields (c : Corpus) : List CandidateEvent → Nat → List (String × String)
  | [], _ => []
  | e :: rest, i =>
    fieldTriple i (pyTrim e.term) (resolveEvent e c).1 (resolveEvent e c).2 ++
      specNumberedFields c rest (i + 1)

/-- C5 as amended: when every term is non-empty (which the extractor
guarantees for the lists it produces), the assembler's positional
numbering coincides with consecutive survivor numbering starting at the
unsuffixed position 1, with no gaps. -/
theorem assembler_consecutive_when_nonempty (c : Corpus) (events : List CandidateEvent)
    (h : ∀ e ∈ events, ¬ pyTrim e.term = "") :
    assembleResponse c events = specNumberedFields c (events.take 5) 1 := by
  have key : ∀ (l : List CandidateEvent) (i : Nat), (∀ e ∈ l, ¬ pyTrim e.term = "") →
      assembleLoop c l i = specNumberedFields c l i := by
    intro l
    induction l with
    | nil => intro i _; rfl
    | cons e rest ih =>
      intro i hl
      unfold assembleLoop specNumberedFields
      rw [if_neg (hl e (List.mem_cons_self _ _))]
      rw [ih (i + 1) (fun x hx => hl x (List.mem_cons_of_mem _ hx))]
  exact key _ 1 (fun e he => h e ((List.take_sublist _ _).subset he))

/-- C5 amended witness: two non-empty terms produce the unsuffixed triple
followed by the suffix-2 triple. -/
theorem assembler_consecutive_when_nonempty_witness :
    assembleResponse ⟨[], [], []⟩
      [⟨"nausea", "None of the above", false⟩, ⟨"rash", "None of the above", false⟩] =
    specNumberedFields ⟨[], [], []⟩
      ([⟨"nausea", "None of the above", false⟩,
        ⟨"rash", "None of the above", false⟩].take 5) 1 :=
  assembler_consecutive_when_nonempty ⟨[], [], []⟩
    [⟨"nausea", "None of the above", false⟩, ⟨"rash", "None of the above", false⟩]
    (by decide)

/-- C8: when the diagnosis path yields nothing and all three parsing
strategies fail on the preprocessed oracle reply, the request fails with
the parse-error message; no adverse-event fields and no blank default
list are produced. -/
theorem parse_failure_propagates (s₁ s₂ s₃ : String → Option JVal)
    (text dc reply : String) (c : Corpus)
    (htext : ¬ pyTrim text = "")
    (hdc : pyTrim dc = "")
    (h1 : s₁ (preprocessReply reply) = none)
    (h2 : s₂ (preprocessReply reply) = none)
    (h3 : s₃ (preprocessReply reply) = none) :
    analyze_text [s₁, s₂, s₃] text dc reply c =
      Except.error "Could not parse JSON after trying multiple strategies" := by
  have hparse : safe_json_loads [s₁, s₂, s₃] reply =
      Except.error "Could not parse JSON after trying multiple strategies" := by
    unfold safe_json_loads
    rw [show ([s₁, s₂, s₃].findSome? (fun f => f (preprocessReply reply))) = none from by
      simp [List.findSome?_cons, h1, h2, h3]]
  have hext : extract_medical_information [s₁, s₂, s₃] dc reply =
      Except.error "Could not parse JSON after trying multiple strategies" := by
    unfold extract_medical_information
    rw [if_neg (fun hcontra => hcontra.2 hdc), hparse]
  unfold analyze_text
  rw [if_neg htext, hext]

/-- C8 witness: three always-failing strategies on a prose reply with no
diagnosed condition produce exactly the propagated parse error. -/
theorem parse_failure_propagates_witness :
    analyze_text [fun _ => none, fun _ => none, fun _ => none]
      "patient reports symptoms" "" "the model replied with prose" ⟨[], [], []⟩ =
      Except.error "Could not parse JSON after trying multiple strategies" :=
  parse_failure_propagates (fun _ => none) (fun _ => none) (fun _ => none)
    "patient reports symptoms" "" "the model replied with prose" ⟨[], [], []⟩
    (by decide) (by decide) rfl rfl rfl

/-- C9: a missing source degrades to the empty term set for its tier
without failing the load, in any combination and even when all three are
missing; when all three sources fail (are unreadable or malformed, the
failures the claim distinguishes from mere absence), the load aborts with
the corpus-load error. -/
theorem corpus_load_degrades_and_fails (f_ms f_sd f_ca : FileOutcome) :
    ((¬ f_ms = FileOutcome.unreadable ∧ ¬ f_sd = FileOutcome.unreadable ∧
      ¬ f_ca = FileOutcome.unreadable) →
      ∃ cp, load_ae_terms_from_csv f_ms f_sd f_ca = Except.ok cp ∧
        (f_ms = FileOutcome.missing → cp.medically_significant_terms = []) ∧
        (f_sd = FileOutcome.missing → cp.significant_disability_terms = []) ∧
        (f_ca = FileOutcome.missing → cp.congenital_anomaly_terms = [])) ∧
    ((f_ms = FileOutcome.unreadable ∧ f_sd = FileOutcome.unreadable ∧
      f_ca = FileOutcome.unreadable) →
      load_ae_terms_from_csv f_ms f_sd f_ca = Except.error "CorpusLoadError") := by
  cases f_ms <;> cases f_sd <;> cases f_ca <;>
    simp [load_ae_terms_from_csv, load_terms]
